import Mathlib

/-!
Verification of the group-based-policy repository's specification against a
shallow embedding of its core algorithms.

Embedded source files:
* `gbpservice/neutron/services/grouppolicy/drivers/cisco/apic/aim_validation.py`
  (the validation/repair engine: `ValidationManager`)
* `gbpservice/neutron/plugins/ml2plus/drivers/apic_aim/apic_mapper.py`
  (the APIC name mapper: `APICNameMapper.mapper.wrap.inner`, `_grow_id_if_needed`,
  `truncate`)
* `gbpservice/neutron/services/grouppolicy/drivers/resource_mapping.py`
  (`_use_implicit_subnet`, `_validate_subnet_overlap_for_l3p`, ownership-gated
  cleanup, `_get_enforced_prs_rules`, `_reject_multiple_redirects_in_rule`,
  `_reject_multiple_redirects_in_prs`)
* `gbpservice/neutron/plugins/ml2plus/drivers/apic_aim/mechanism_driver.py`
  (`_agent_bind_port`)
-/

namespace GBP

/-! ## Validation/repair engine (aim_validation.py) -/

/-- The three validation outcomes: `VALIDATION_PASSED`, `VALIDATION_REPAIRED`,
`VALIDATION_FAILED` (aim_validation.py lines 28-30). -/
inductive VResult
  | passed
  | repaired
  | failed
deriving DecidableEq, Repr

/-- Values of the non-identity attributes compared by `_is_resource_correct`.
An `arr` value corresponds to an `array`-typed attribute, which the source
compares set-wise (ignoring order); a `scalar` value is compared directly. -/
inductive AttrVal
  | scalar (s : String)
  | arr (xs : List String)
deriving DecidableEq, Repr

/-- An AIM resource as seen by the validation engine: its identity tuple
(`resource.identity`), its optional `monitored` flag (`none` models a resource
class lacking the attribute, which `getattr(r, 'monitored', True)` treats as
monitored), and its non-identity attribute values. -/
structure AimResource where
  identity : List String
  monitored : Option Bool
  attrs : List (String × AttrVal)
deriving DecidableEq, Repr

/-- `getattr(resource, 'monitored', True)` from aim_validation.py lines 150
and 155. -/
def monitoredDefTrue (r : AimResource) : Bool :=
  r.monitored.getD true

/-- Set-wise comparison of attribute values, as in `_is_resource_correct`:
array-typed attributes are converted to sets before comparison, scalar
attributes compared directly; values of different shapes never compare
equal. -/
def attrValEq : AttrVal → AttrVal → Bool
  | .scalar s, .scalar t => s == t
  | .arr xs, .arr ys =>
      xs.all (fun x => ys.contains x) && ys.all (fun y => xs.contains y)
  | _, _ => false

/-- `expected_values.get(attr_name)` / `actual_values.get(attr_name)`:
dictionary lookup of an attribute value, `none` when absent. -/
def lookupAttr (attrs : List (String × AttrVal)) (n : String) : Option AttrVal :=
  (attrs.find? (fun p => p.1 == n)).map (fun p => p.2)

/-- Comparison of two optional attribute values in `_is_resource_correct`:
both absent compares equal, both present uses `attrValEq`. -/
def optValEq : Option AttrVal → Option AttrVal → Bool
  | none, none => true
  | some a, some b => attrValEq a b
  | _, _ => false

/-- `ValidationManager._is_resource_correct` (aim_validation.py lines 166-185):
for every attribute name in the resource class's `other_attributes` schema,
the expected and actual values must agree, set-wise for array attributes. -/
def isResourceCorrect (schema : List String) (expected actual : AimResource) : Bool :=
  schema.all (fun n => optValEq (lookupAttr expected.attrs n) (lookupAttr actual.attrs n))

/-- The repair operations the engine can perform against the actual AIM store:
`aim_mgr.delete` of an unexpected resource, `aim_mgr.create(..., overwrite=True)`
of an incorrect resource, `aim_mgr.create` of a missing resource. -/
inductive RepairAction
  | deleteRes (a : AimResource)
  | createOverwrite (e : AimResource)
  | createRes (e : AimResource)
deriving DecidableEq, Repr

/-- `ValidationManager.should_repair` (lines 115-122) as a pure test: a repair
proceeds exactly when repair was requested and the result is not already
`failed`; its state effect is captured in `stepActual` / `stepMissing`. -/
def shouldRepairB (repair : Bool) (result : VResult) : Bool :=
  repair && !(result == .failed)

/-- The mutable state threaded through `_validate_aim_resource_class`:
current overall result, the not-yet-consumed expected resources (the
`expected_resources` dict, keyed by identity), the contents of the actual
store as left by the processing so far, and the repair actions issued. -/
structure ClassAcc where
  result : VResult
  expectedLeft : List AimResource
  outStore : List AimResource
  actions : List RepairAction
deriving Repr

/-- `ValidationManager._validate_actual_aim_resource` (lines 143-164) for one
actual resource: look up the expected resource by identity tuple; an
unmatched actual that is not monitored is unexpected (repair = delete);
a matched expected that is monitored is never attribute-compared; a matched
non-monitored expected with differing attributes is incorrect (repair =
overwrite-create); the matched expected entry is consumed (`del`).
The actual store contents are rebuilt in `outStore`: a deleted resource is
dropped, an overwritten one is replaced by the expected resource, all others
are kept unchanged. -/
def stepActual (schema : List String) (repair : Bool) (acc : ClassAcc)
    (a : AimResource) : ClassAcc :=
  match acc.expectedLeft.find? (fun e => e.identity == a.identity) with
  | none =>
      if monitoredDefTrue a then
        { acc with outStore := acc.outStore ++ [a] }
      else
        if shouldRepairB repair acc.result then
          { acc with
            result := .repaired
            actions := acc.actions ++ [.deleteRes a] }
        else
          { acc with
            result := .failed
            outStore := acc.outStore ++ [a] }
  | some e =>
      let rest := acc.expectedLeft.eraseP (fun e2 => e2.identity == a.identity)
      if monitoredDefTrue e then
        { acc with
          expectedLeft := rest
          outStore := acc.outStore ++ [a] }
      else if isResourceCorrect schema e a then
        { acc with
          expectedLeft := rest
          outStore := acc.outStore ++ [a] }
      else if shouldRepairB repair acc.result then
        { result := .repaired
          expectedLeft := rest
          outStore := acc.outStore ++ [e]
          actions := acc.actions ++ [.createOverwrite e] }
      else
        { result := .failed
          expectedLeft := rest
          outStore := acc.outStore ++ [a]
          actions := acc.actions }

/-- `ValidationManager._handle_missing_aim_resource` (lines 206-211) for one
expected resource left unconsumed: repair by creation, or fail. -/
def stepMissing (repair : Bool) (acc : ClassAcc) (e : AimResource) : ClassAcc :=
  if shouldRepairB repair acc.result then
    { acc with
      result := .repaired
      outStore := acc.outStore ++ [e]
      actions := acc.actions ++ [.createRes e] }
  else
    { acc with result := .failed }

/-- `ValidationManager._validate_aim_resource_class` (lines 131-141): process
every actual resource against the expected dict, then treat every unconsumed
expected resource as missing. -/
def validateClass (schema : List String) (repair : Bool) (r0 : VResult)
    (expected actual : List AimResource) : ClassAcc :=
  let acc1 := actual.foldl (stepActual schema repair) ⟨r0, expected, [], []⟩
  acc1.expectedLeft.foldl (stepMissing repair) acc1

/-- Outcome of one `ValidationManager.validate` run: the returned result, the
actual-store contents after any repairs, the repair actions issued, and
whether the transaction was committed. -/
structure RunOutcome where
  result : VResult
  store : List AimResource
  actions : List RepairAction
  committed : Bool
deriving Repr

/-- `ValidationManager.validate` (lines 42-94) restricted to one resource
class: the result starts `passed`; `preResult` is the result state after the
driver-level `validate_neutron_mapping` / `validate_aim_mapping` phases
(`passed` when they found nothing); the AIM resource comparison runs only if
the result is not already `failed` (line 79); the transaction is committed
exactly when the final result is `repaired` (lines 85-91). -/
def validateRun (schema : List String) (repair : Bool) (preResult : VResult)
    (expected actual : List AimResource) : RunOutcome :=
  let acc :=
    if preResult == .failed then
      ClassAcc.mk preResult expected actual []
    else
      validateClass schema repair preResult expected actual
  { result := acc.result
    store := acc.outStore
    actions := acc.actions
    committed := acc.result == .repaired }

/-- Position of a result along the `passed` → `repaired` → `failed` chain. -/
def vrank : VResult → Nat
  | .passed => 0
  | .repaired => 1
  | .failed => 2

/-- Whether `_validate_actual_aim_resource` detects a problem for actual
resource `a` against the not-yet-consumed expected resources `L`: an
unmatched actual that is not monitored, or a matched non-monitored expected
whose compared attributes differ. -/
def detectsProblem (schema : List String) (L : List AimResource)
    (a : AimResource) : Bool :=
  match L.find? (fun e => e.identity == a.identity) with
  | none => !(monitoredDefTrue a)
  | some e => !(monitoredDefTrue e) && !(isResourceCorrect schema e a)

/-- A single injected drift between the expected inventory `E` and the actual
inventory `A`: one expected resource missing from the actual store, one
unexpected non-monitored actual resource whose identity matches no expected
resource, or one actual resource whose identity matches a non-monitored
expected resource but whose compared attributes differ. All other actual
resources equal their expected counterparts. -/
def SingleDrift (schema : List String) (E A : List AimResource) : Prop :=
  (∃ E1 e E2, E = E1 ++ e :: E2 ∧ A = E1 ++ E2) ∨
  (∃ A1 x A2, E = A1 ++ A2 ∧ A = A1 ++ x :: A2 ∧
    monitoredDefTrue x = false ∧ ∀ e ∈ E, e.identity ≠ x.identity) ∨
  (∃ E1 e E2 a, E = E1 ++ e :: E2 ∧ A = E1 ++ a :: E2 ∧
    a.identity = e.identity ∧ monitoredDefTrue e = false ∧
    isResourceCorrect schema e a = false)

/-! ## APIC name mapper (apic_mapper.py) -/

/-- `MAX_APIC_NAME_LENGTH` (apic_mapper.py line 50). -/
def maxApicNameLength : Int := 46

/-- `truncate(string, max_length)` (apic_mapper.py lines 74-77): a negative
maximum yields the empty string, otherwise the string is cut to at most
`maxLength` characters. -/
def truncate (s : String) (maxLength : Int) : String :=
  if maxLength < 0 then ""
  else if (s.length : Int) > maxLength then String.mk (s.data.take maxLength.toNat)
  else s

/-- `re.sub(r"-+", "-", s)`: collapse every run of dashes to a single dash. -/
def collapseDashesAux : Bool → List Char → List Char
  | _, [] => []
  | prevDash, c :: rest =>
      if c = '-' then
        if prevDash then collapseDashesAux true rest
        else '-' :: collapseDashesAux true rest
      else c :: collapseDashesAux false rest

/-- Dash-collapsing applied to a string (`purged_id` computation and the
name purge in `inner`). -/
def collapseDashes (s : String) : String :=
  String.mk (collapseDashesAux false s.data)

/-- `result.replace(' ', '')` ("Remove forbidden whitespaces"). -/
def removeSpaces (s : String) : String :=
  String.mk (s.data.filter (fun c => c ≠ ' '))

/-- One row of the name-mapping cache table consumed through
`get_apic_name` / `update_apic_name` / `delete_apic_name` /
`get_filtered_apic_names`. -/
structure NameRecord where
  resource_id : String
  neutron_type : String
  apic_name : String
deriving DecidableEq, Repr

/-- The persistent name-mapping store. -/
abbrev MapperDB := List NameRecord

/-- `inst.db.get_apic_name(session, resource_id, name_type)`: the persisted
name for a (resource id, resource type) pair, if any. -/
def getApicName (db : MapperDB) (rid ty : String) : Option String :=
  (db.find? (fun r => r.resource_id == rid && r.neutron_type == ty)).map
    (fun r => r.apic_name)

/-- `inst.db.update_apic_name(session, resource_id, name_type, result)`:
store the mapping, replacing any previous row for the same key. -/
def updateApicName (db : MapperDB) (rid ty nm : String) : MapperDB :=
  ⟨rid, ty, nm⟩ :: db.filter (fun r => !(r.resource_id == rid && r.neutron_type == ty))

/-- `inst.db.delete_apic_name(session, resource_id)`: drop every mapping row
for the resource id. -/
def deleteApicName (db : MapperDB) (rid : String) : MapperDB :=
  db.filter (fun r => !(r.resource_id == rid))

/-- `inst.db.get_filtered_apic_names(session, neutron_type=..., apic_name=...)`
used as a collision probe: does any row of the same resource-type namespace
already carry this name? -/
def getFilteredApicNames (db : MapperDB) (ty nm : String) : Bool :=
  db.any (fun r => r.neutron_type == ty && r.apic_name == nm)

/-- The `while True` loop of `APICNameMapper._grow_id_if_needed` (lines
153-165): while the collision probe reports the current name taken, append a
leading underscore on the very first iteration when `start == 0`, then the
next id character; running out of id characters (`IndexError`) returns the
name grown so far, accepting the possible collision. `firstFlag` is the
`x == 0 and start == 0` test, `rest` holds `resource_id[start + x:]`. -/
def growFrom (collides : String → Bool) : Bool → List Char → String → String
  | firstFlag, [], result =>
      if collides result then
        (if firstFlag then result ++ "_" else result)
      else result
  | firstFlag, c :: rest, result =>
      if collides result then
        let r1 := if firstFlag then result ++ "_" else result
        growFrom collides false rest (r1.push c)
      else result

/-- `APICNameMapper._grow_id_if_needed` (lines 149-172): strip one trailing
underscore, then grow the name with id characters from position `start`
until the collision probe is satisfied. -/
def growIdIfNeeded (collides : String → Bool) (resourceId current : String)
    (start : Nat) : String :=
  let r0 := if current.data.getLast? == some '_' then String.mk current.data.dropLast
            else current
  growFrom collides (start == 0) (resourceId.data.drop start) r0

/-- The two naming strategies `use_uuid` and `use_name` (lines 24-25). -/
inductive Strategy
  | useUuid
  | useName
deriving DecidableEq, Repr

/-- The name-computation path of `APICNameMapper.mapper.wrap.inner` (lines
111-137), entered when no persisted mapping exists: derive a candidate from
the human name (the mapper callbacks such as `network` simply return the
passed resource name; a raised exception is logged and treated as no name),
falling back to the dash-collapsed resource id when the name is empty.
Under `use_uuid` the candidate is the truncated name plus an underscore and
the first `minSuffix` purged-id characters, truncated to 46, spaces removed,
then grown through the collision probe; under `use_name` the candidate is the
truncated, space-stripped name itself. An empty name yields the dash-collapsed
id verbatim. -/
def computeMappedName (strategy : Strategy) (minSuffix : Nat) (db : MapperDB)
    (ty rid : String) (rname : Option String) : String :=
  let name0 := rname.getD ""
  let purged := collapseDashes rid
  let base := String.mk (purged.data.take minSuffix)
  if name0 ≠ "" then
    let nm := collapseDashes name0
    let r1 :=
      match strategy with
      | .useName => nm
      | .useUuid =>
          let idSuffix := "_" ++ base
          truncate nm (maxApicNameLength - (idSuffix.length : Int)) ++ idSuffix
    let r2 := truncate r1 maxApicNameLength
    let r3 := removeSpaces r2
    match strategy with
    | .useUuid => growIdIfNeeded (fun s => getFilteredApicNames db ty s) purged r3 minSuffix
    | .useName => r3
  else purged

/-- `APICNameMapper.mapper.wrap.inner` (lines 92-145) without the
`existing=True` shortcut: a `remap` call first deletes the persisted mapping;
otherwise a persisted mapping is returned as-is, with the requested prefix
prepended and the result re-truncated to 46 when a prefix was given. When no
mapping survives, the name is computed, persisted, and returned (again with
optional prefix prepended and re-truncated). Returns the updated store and
the name handed back to the caller. -/
def innerMap (strategy : Strategy) (minSuffix : Nat) (db : MapperDB)
    (ty rid : String) (rname : Option String) (remap : Bool) (pfx : String) :
    MapperDB × String :=
  let withPfx := fun (r : String) =>
    if pfx ≠ "" then truncate (pfx ++ r) maxApicNameLength else r
  if remap then
    let db1 := deleteApicName db rid
    let result := computeMappedName strategy minSuffix db1 ty rid rname
    (updateApicName db1 rid ty result, withPfx result)
  else
    match getApicName db rid ty with
    | some saved => (db, withPfx saved)
    | none =>
        let result := computeMappedName strategy minSuffix db ty rid rname
        (updateApicName db rid ty result, withPfx result)

/-! ## Resource mapping driver (resource_mapping.py) -/

/-- A CIDR block: aligned network address and its length, over the
32-bit IPv4 address space handled by `netaddr.IPNetwork`. -/
structure Cidr where
  base : Nat
  plen : Nat
deriving DecidableEq, Repr

/-- Number of addresses in the block. -/
def Cidr.size (c : Cidr) : Nat := 2 ^ (32 - c.plen)

/-- Nonempty intersection of the two blocks' address ranges, the meaning of
`netaddr.IPSet([a]) & netaddr.IPSet([b])` being truthy for two CIDRs. -/
def cidrOverlap (c1 c2 : Cidr) : Bool :=
  decide (c1.base < c2.base + c2.size) && decide (c2.base < c1.base + c1.size)

/-- `pool.subnet(prefix_length)`: the subnets of the pool at the given
length, enumerated in address order (empty for a length outside
`pool.plen ≤ p ≤ 32`). -/
def poolSubnets (pool : Cidr) (p : Nat) : List Cidr :=
  if pool.plen ≤ p ∧ p ≤ 32 then
    (List.range (2 ^ (p - pool.plen))).map
      (fun i => Cidr.mk (pool.base + i * 2 ^ (32 - p)) p)
  else []

/-- `ResourceMappingDriver._validate_subnet_overlap_for_l3p` (lines 974-979):
`true` exactly when the candidate CIDR's address set intersects none of the
subnets already in use under the L3Policy. -/
def validateSubnetOverlapForL3p (subnets : List Cidr) (subnetCidr : Cidr) : Bool :=
  subnets.all (fun s => !(cidrOverlap s subnetCidr))

/-- Outcome of attempting to create a candidate subnet and attach it to the
L3Policy's router, the backend behavior `_use_implicit_subnet` reacts to:
success; a `BadRequest` from subnet creation (expected CIDR overlap, caught
and treated as try-next); an `InvalidInput` from the router attach (deletes
the subnet and raises `GroupPolicyInternalError`); a `BadRequest` escaping
the router attach (caught by the outer handler, also treated as try-next). -/
inductive CreateOutcome
  | ok
  | createBadRequest
  | attachInvalidInput
  | attachBadRequest
deriving DecidableEq, Repr

/-- Result of `_use_implicit_subnet`: the allocated subnet's CIDR, or one of
the two raised errors. -/
inductive SubnetResult
  | ok (c : Cidr)
  | internalError
  | noSubnetAvailable
deriving DecidableEq, Repr

/-- The candidate loop of `ResourceMappingDriver._use_implicit_subnet`
(lines 935-972): skip candidates that overlap an in-use subnet, return the
first remaining candidate the backend accepts, treat create/attach
`BadRequest` as try-next, abort with `GroupPolicyInternalError` on an
attach `InvalidInput`, and raise `NoSubnetAvailable` when the candidates are
exhausted. -/
def useImplicitSubnetGo (existing : List Cidr) (tryCreate : Cidr → CreateOutcome) :
    List Cidr → SubnetResult
  | [] => .noSubnetAvailable
  | c :: rest =>
      if !(validateSubnetOverlapForL3p existing c) then
        useImplicitSubnetGo existing tryCreate rest
      else
        match tryCreate c with
        | .ok => .ok c
        | .createBadRequest => useImplicitSubnetGo existing tryCreate rest
        | .attachBadRequest => useImplicitSubnetGo existing tryCreate rest
        | .attachInvalidInput => .internalError

/-- `ResourceMappingDriver._use_implicit_subnet` (lines 911-972): enumerate
the candidate subnets of the L3Policy's ip_pool at `subnetLen` in order and
run the candidate loop against the subnets already attached to
EndpointGroups under the same L3Policy. -/
def useImplicitSubnet (existing : List Cidr) (tryCreate : Cidr → CreateOutcome)
    (pool : Cidr) (subnetLen : Nat) : SubnetResult :=
  useImplicitSubnetGo existing tryCreate (poolSubnets pool subnetLen)

/-- The owned-resource records (`OwnedNetwork` / `OwnedSubnet` /
`OwnedRouter` rows) the ownership tracker keeps per implicitly created
lower-level resource. -/
structure OwnedState where
  ownedNetworks : List String
  ownedSubnets : List String
  ownedRouters : List String
deriving Repr

/-- Calls issued against the lower-level resource backend during cleanup. -/
inductive BackendCall
  | deleteNetwork (id : String)
  | deleteSubnet (id : String)
  | deleteRouter (id : String)
  | removeRouterInterface (routerId subnetId : String)
deriving DecidableEq, Repr

/-- `_mark_network_owned` (lines 1470-1473): insert an owned-record row. -/
def markNetworkOwned (st : OwnedState) (id : String) : OwnedState :=
  { st with ownedNetworks := id :: st.ownedNetworks }

/-- `_network_is_owned` (lines 1475-1479): existence of an owned-record. -/
def networkIsOwned (st : OwnedState) (id : String) : Bool :=
  st.ownedNetworks.contains id

/-- `_mark_subnet_owned` (lines 1459-1462). -/
def markSubnetOwned (st : OwnedState) (id : String) : OwnedState :=
  { st with ownedSubnets := id :: st.ownedSubnets }

/-- `_subnet_is_owned` (lines 1464-1468). -/
def subnetIsOwned (st : OwnedState) (id : String) : Bool :=
  st.ownedSubnets.contains id

/-- `_mark_router_owned` (lines 1481-1484). -/
def markRouterOwned (st : OwnedState) (id : String) : OwnedState :=
  { st with ownedRouters := id :: st.ownedRouters }

/-- `_router_is_owned` (lines 1486-1490). -/
def routerIsOwned (st : OwnedState) (id : String) : Bool :=
  st.ownedRouters.contains id

/-- `ResourceMappingDriver._cleanup_network` (lines 1010-1012): delete the
network only when an owned-record exists for it. -/
def cleanupNetwork (st : OwnedState) (id : String) : List BackendCall :=
  if networkIsOwned st id then [.deleteNetwork id] else []

/-- `ResourceMappingDriver._cleanup_subnet` (lines 987-993): always detach
from the router when one is given, delete the subnet only when an
owned-record exists for it. -/
def cleanupSubnet (st : OwnedState) (subnetId : String) (routerId : Option String) :
    List BackendCall :=
  (match routerId with
   | some r => [.removeRouterInterface r subnetId]
   | none => []) ++
  (if subnetIsOwned st subnetId then [.deleteSubnet subnetId] else [])

/-- `ResourceMappingDriver._cleanup_router` (lines 1024-1026). -/
def cleanupRouter (st : OwnedState) (id : String) : List BackendCall :=
  if routerIsOwned st id then [.deleteRouter id] else []

/-- A PolicyRule as read through `get_policy_rules`: id, classifier
reference, and action references. -/
structure PolicyRule where
  id : String
  policy_classifier_id : String
  policy_actions : List String
deriving DecidableEq, Repr

/-- A PolicyRuleSet as read through `get_policy_rule_set`. -/
structure PolicyRuleSet where
  id : String
  parent_id : Option String
  policy_rules : List String
deriving DecidableEq, Repr

/-- A PolicyAction with its type (`allow` or `redirect`). -/
structure PolicyAction where
  id : String
  action_type : String
deriving DecidableEq, Repr

/-- `context._plugin.get_policy_rules(..., filters={'id': ids})`: the rules
of the store whose id is among `ids`. -/
def getPolicyRules (db : List PolicyRule) (ids : List String) : List PolicyRule :=
  db.filter (fun r => ids.contains r.id)

/-- `context._plugin.get_policy_rule_set(context, id)` lookup. -/
def getPolicyRuleSet (db : List PolicyRuleSet) (i : String) : Option PolicyRuleSet :=
  db.find? (fun p => p.id == i)

/-- `get_policy_actions(..., filters={'id': ids, 'action_type': types})`. -/
def getPolicyActions (db : List PolicyAction) (ids types : List String) :
    List PolicyAction :=
  db.filter (fun a => ids.contains a.id && types.contains a.action_type)

/-- The `subset = subset or prs['policy_rules']` fallback of
`_get_enforced_prs_rules` (line 1595): an empty or missing `subset` argument
falls back to the rule-set's own rules. -/
def prsSubsetArg (prs : PolicyRuleSet) (subset : Option (List String)) : List String :=
  match subset with
  | none => prs.policy_rules
  | some l => if l.isEmpty then prs.policy_rules else l

/-- `ResourceMappingDriver._get_enforced_prs_rules` (lines 1594-1615): with a
parent, keep only the subset rules whose classifier occurs among the
parent's rules' classifiers, re-fetching the kept rules by id; without a
parent, fetch every subset rule. `none` models the `NotFound` raised when
the parent rule-set is absent. -/
def getEnforcedPrsRules (ruleDb : List PolicyRule) (prsDb : List PolicyRuleSet)
    (prs : PolicyRuleSet) (subset : Option (List String)) :
    Option (List PolicyRule) :=
  let sub := prsSubsetArg prs subset
  match prs.parent_id with
  | some pid =>
      match getPolicyRuleSet prsDb pid with
      | none => none
      | some parent =>
          let parentRules := getPolicyRules ruleDb parent.policy_rules
          let subsetRules := getPolicyRules ruleDb sub
          let parentClassifierIds := parentRules.map (fun r => r.policy_classifier_id)
          let keptIds := (subsetRules.filter
            (fun r => parentClassifierIds.contains r.policy_classifier_id)).map
            (fun r => r.id)
          some (getPolicyRules ruleDb keptIds)
  | none => some (getPolicyRules ruleDb sub)

/-- The `gconst.GP_ACTION_REDIRECT` action type. -/
def redirectType : String := "redirect"

/-- `ResourceMappingDriver._reject_multiple_redirects_in_rule` (lines
201-207): `true` exactly when the exception
`MultipleRedirectActionsNotSupportedForRule` is raised, i.e. when more than
one of the rule's actions is REDIRECT-typed. -/
def rejectMultipleRedirectsInRule (actionDb : List PolicyAction)
    (ruleActionIds : List String) : Bool :=
  decide ((getPolicyActions actionDb ruleActionIds [redirectType]).length > 1)

/-- `ResourceMappingDriver._reject_multiple_redirects_in_prs` (lines
209-221): `true` exactly when `MultipleRedirectActionsNotSupportedForPRS` is
raised, i.e. when the rules of the rule-set collectively carry more than one
REDIRECT-typed action. -/
def rejectMultipleRedirectsInPrs (actionDb : List PolicyAction)
    (ruleDb : List PolicyRule) (prsRuleIds : List String) : Bool :=
  let redirectActionsList :=
    ((getPolicyRules ruleDb prsRuleIds).map
      (fun r => getPolicyActions actionDb r.policy_actions [redirectType])).flatten
  decide (redirectActionsList.length > 1)

/-! ## Port binding (mechanism_driver.py) -/

/-- An agent candidate as returned by `context.host_agents(agent_type)`:
its liveness flag and an identifying name. -/
structure Agent where
  alive : Bool
  agentId : String
deriving DecidableEq, Repr

/-- `ApicMechanismDriver._agent_bind_port` (mechanism_driver.py lines
408-418), recorded as the sequence of (agent, segment) combinations on which
`bind_strategy` is invoked: a dead agent is skipped with a warning (no
combination of it is ever attempted); for every live agent each segment is
attempted in turn. The loop body contains no break or return, so the
sequence of attempts does not depend on the strategy's acceptances. -/
def agentBindPort (agents : List Agent) (segments : List String) :
    List (Agent × String) :=
  agents.foldl
    (fun acc ag =>
      if ag.alive then acc ++ segments.map (fun sg => (ag, sg)) else acc)
    []

/-! ## Claim-side characterizations -/

/-- Pairwise-distinct identity tuples, the property the AIM store guarantees
for both the expected dict (`expect_aim_resource` raises on a duplicate key)
and the actual inventory (keyed storage). -/
abbrev distinctKeys (l : List AimResource) : Prop :=
  l.Pairwise (fun x y => x.identity ≠ y.identity)

/-- A candidate CIDR that the allocation loop passes over without returning:
it overlaps a subnet already in use, or the backend rejects it with one of
the two `BadRequest` shapes treated as CIDR-already-in-use. -/
def skipOrConflict (existing : List Cidr) (tryCreate : Cidr → CreateOutcome)
    (c : Cidr) : Prop :=
  validateSubnetOverlapForL3p existing c = false ∨
  tryCreate c = .createBadRequest ∨ tryCreate c = .attachBadRequest

/-- The number of REDIRECT-typed actions among the actions referenced by
`ids`, the quantity the redirect cardinality checks are about. -/
def countRedirectActions (actionDb : List PolicyAction) (ids : List String) : Nat :=
  (actionDb.filter (fun a => ids.contains a.id && a.action_type == redirectType)).length

/-! ## Basic lemmas -/

theorem attrValEq_refl (v : AttrVal) : attrValEq v v = true := by
  cases v with
  | scalar s => simp [attrValEq]
  | arr xs =>
      simp only [attrValEq, Bool.and_eq_true, List.all_eq_true]
      exact ⟨fun x hx => by simpa using hx, fun x hx => by simpa using hx⟩

theorem optValEq_refl (v : Option AttrVal) : optValEq v v = true := by
  cases v with
  | none => rfl
  | some a => simpa [optValEq] using attrValEq_refl a

theorem isResourceCorrect_refl (schema : List String) (e : AimResource) :
    isResourceCorrect schema e e = true := by
  simp only [isResourceCorrect, List.all_eq_true]
  exact fun n _ => optValEq_refl _

/-! ## C10: monitored matched resources are never attribute-compared -/

/-- C10: when an actual resource matches an expected resource by identity
tuple and the expected resource is monitored (or lacks the attribute, which
is treated as monitored), `_validate_actual_aim_resource` compares no
non-identity attributes: whatever the two resources' attribute values and
whatever the comparison schema, the result is unchanged (no `FAILED`), no
repair action is issued, the actual resource is kept as-is, and the matched
expected entry is consumed so it cannot later be reported missing. -/
theorem monitored_matched_resource_ignored (schema : List String) (repair : Bool)
    (acc : ClassAcc) (a e : AimResource)
    (hfind : acc.expectedLeft.find? (fun e2 => e2.identity == a.identity) = some e)
    (hmon : e.monitored = some true ∨ e.monitored = none) :
    stepActual schema repair acc a =
      { acc with
        expectedLeft := acc.expectedLeft.eraseP (fun e2 => e2.identity == a.identity)
        outStore := acc.outStore ++ [a] } := by
  have hm : monitoredDefTrue e = true := by
    rcases hmon with h | h <;> simp [monitoredDefTrue, h]
  simp [stepActual, hfind, hm]

/-- Witness for C10 at a concrete input: a monitored expected resource whose
attributes differ from the actual one's is consumed without any repair. -/
theorem monitored_matched_resource_ignored_witness :
    stepActual ["x"] false
      ⟨.passed, [⟨["k"], some true, [("x", .scalar "1")]⟩], [], []⟩
      ⟨["k"], some true, [("x", .scalar "9")]⟩ =
      ⟨.passed, [], [⟨["k"], some true, [("x", .scalar "9")]⟩], []⟩ := by
  have h := monitored_matched_resource_ignored ["x"] false
    ⟨.passed, [⟨["k"], some true, [("x", .scalar "1")]⟩], [], []⟩
    ⟨["k"], some true, [("x", .scalar "9")]⟩
    ⟨["k"], some true, [("x", .scalar "1")]⟩ (by decide) (Or.inl rfl)
  simpa using h

/-! ## C4: ownership-gated cleanup -/

/-- C4: at policy-object deletion the driver deletes the dependent network,
subnet, or router against the backend if and only if an owned-record for
that resource exists in the ownership tracker; cleanup of a resource never
marked owned issues no delete, and cleanup after marking always issues the
delete. -/
theorem ownership_gated_cleanup :
    (∀ st id, BackendCall.deleteNetwork id ∈ cleanupNetwork st id ↔
      networkIsOwned st id = true) ∧
    (∀ st sid rid, BackendCall.deleteSubnet sid ∈ cleanupSubnet st sid rid ↔
      subnetIsOwned st sid = true) ∧
    (∀ st id, BackendCall.deleteRouter id ∈ cleanupRouter st id ↔
      routerIsOwned st id = true) ∧
    (∀ st id, BackendCall.deleteNetwork id ∈ cleanupNetwork (markNetworkOwned st id) id) ∧
    (∀ st sid rid, BackendCall.deleteSubnet sid ∈ cleanupSubnet (markSubnetOwned st sid) sid rid) ∧
    (∀ st id, BackendCall.deleteRouter id ∈ cleanupRouter (markRouterOwned st id) id) := by
  refine ⟨fun st id => ?_, fun st sid rid => ?_, fun st id => ?_,
    fun st id => ?_, fun st sid rid => ?_, fun st id => ?_⟩
  · by_cases h : networkIsOwned st id = true <;> simp [cleanupNetwork, h]
  · by_cases h : subnetIsOwned st sid = true <;>
      cases rid <;> simp [cleanupSubnet, h]
  · by_cases h : routerIsOwned st id = true <;> simp [cleanupRouter, h]
  · simp [cleanupNetwork, markNetworkOwned, networkIsOwned]
  · cases rid <;> simp [cleanupSubnet, markSubnetOwned, subnetIsOwned]
  · simp [cleanupRouter, markRouterOwned, routerIsOwned]

/-! ## C9: port binding tries combinations past the first acceptance -/

/-- C9 is a code bug: `_agent_bind_port` skips a dead agent (no combination
involving it is attempted), which is the claim's first half; but its loop
body contains no return, so `bind_strategy` is invoked on every remaining
live agent-and-segment combination even after one accepts (and the method
always returns `None`, so the caller's `if self._agent_bind_port(...):
return` can never short-circuit either). Concretely, with a dead agent, a
live agent `a2` whose strategy accepts segment `s1`, and a further live
agent `a3`, the code still attempts `(a3, s1)` after the acceptance of
`(a2, s1)`. -/
theorem agent_bind_port_tries_all_live_combinations :
    agentBindPort [⟨false, "a1"⟩, ⟨true, "a2"⟩, ⟨true, "a3"⟩] ["s1"] =
      [(⟨true, "a2"⟩, "s1"), (⟨true, "a3"⟩, "s1")] ∧
    (agentBindPort [⟨false, "a1"⟩, ⟨true, "a2"⟩, ⟨true, "a3"⟩] ["s1"]).contains
      (⟨false, "a1"⟩, "s1") = false := by
  exact ⟨rfl, rfl⟩

/-! ## C8: redirect cardinality rejections -/

theorem getPolicyActions_redirect (actionDb : List PolicyAction) (ids : List String) :
    getPolicyActions actionDb ids [redirectType] =
      actionDb.filter (fun a => ids.contains a.id && a.action_type == redirectType) := by
  unfold getPolicyActions
  apply List.filter_congr
  intro a _
  by_cases h : a.action_type = redirectType <;> simp [h]

/-- C8: `_reject_multiple_redirects_in_rule` raises
`MultipleRedirectActionsNotSupportedForRule` exactly when more than one of
the rule's actions is REDIRECT-typed, `_reject_multiple_redirects_in_prs`
raises `MultipleRedirectActionsNotSupportedForPRS` exactly when the rules of
the rule-set collectively carry more than one REDIRECT-typed action, and
with at most one in each neither is raised. -/
theorem multiple_redirect_rejection :
    (∀ actionDb ruleActionIds,
      rejectMultipleRedirectsInRule actionDb ruleActionIds = true ↔
        1 < countRedirectActions actionDb ruleActionIds) ∧
    (∀ actionDb ruleDb prsRuleIds,
      rejectMultipleRedirectsInPrs actionDb ruleDb prsRuleIds = true ↔
        1 < ((getPolicyRules ruleDb prsRuleIds).map
          (fun r => countRedirectActions actionDb r.policy_actions)).sum) := by
  constructor
  · intro actionDb ruleActionIds
    simp [rejectMultipleRedirectsInRule, countRedirectActions,
      getPolicyActions_redirect]
  · intro actionDb ruleDb prsRuleIds
    have hlen : (((getPolicyRules ruleDb prsRuleIds).map
        (fun r => getPolicyActions actionDb r.policy_actions [redirectType])).flatten).length =
        ((getPolicyRules ruleDb prsRuleIds).map
          (fun r => countRedirectActions actionDb r.policy_actions)).sum := by
      rw [List.length_flatten, List.map_map]
      congr 1
      apply List.map_congr_left
      intro r _
      simp [countRedirectActions, getPolicyActions_redirect]
    simp [rejectMultipleRedirectsInPrs, hlen]

/-! ## C7: enforced rule-set restriction -/

theorem mem_unique_of_nodup_map_id (db : List PolicyRule)
    (hn : (db.map PolicyRule.id).Nodup) :
    ∀ r ∈ db, ∀ q ∈ db, r.id = q.id → r = q := by
  intro r hr q hq hid
  exact List.inj_on_of_nodup_map hn hr hq hid

theorem getPolicyRules_map_id_of_sublist (db l : List PolicyRule)
    (hn : (db.map PolicyRule.id).Nodup) (hl : l.Sublist db) :
    getPolicyRules db (l.map PolicyRule.id) = l := by
  unfold getPolicyRules
  induction hl with
  | slnil => rfl
  | @cons l₁ l₂ a h ih =>
      have hn' : (l₂.map PolicyRule.id).Nodup := (List.nodup_cons.mp (by simpa using hn)).2
      have ha : a.id ∉ l₂.map PolicyRule.id := (List.nodup_cons.mp (by simpa using hn)).1
      have hsub : (l₁.map PolicyRule.id).Sublist (l₂.map PolicyRule.id) := h.map _
      have hnotin : ((l₁.map PolicyRule.id).contains a.id) = false := by
        by_cases hm : a.id ∈ l₁.map PolicyRule.id
        · exact absurd (hsub.mem hm) ha
        · simp [hm]
      rw [List.filter_cons, hnotin]
      simp only [Bool.false_eq_true, if_false]
      exact ih hn'
  | @cons₂ l₁ l₂ a h ih =>
      have hn' : (l₂.map PolicyRule.id).Nodup := (List.nodup_cons.mp (by simpa using hn)).2
      have ha : a.id ∉ l₂.map PolicyRule.id := (List.nodup_cons.mp (by simpa using hn)).1
      have hfilter : l₂.filter (fun r => (((a :: l₁).map PolicyRule.id).contains r.id)) =
          l₂.filter (fun r => ((l₁.map PolicyRule.id).contains r.id)) := by
        apply List.filter_congr
        intro r hr
        have hne : r.id ≠ a.id := fun hEq =>
          ha (hEq ▸ List.mem_map_of_mem PolicyRule.id hr)
        simp [hne]
      have hacontains : (((a :: l₁).map PolicyRule.id).contains a.id) = true := by simp
      rw [List.filter_cons, hacontains]
      simp only [if_true]
      rw [hfilter, ih hn']

/-- C7: with a parent rule-set, `_get_enforced_prs_rules` returns exactly
those of the given rules whose classifier occurs among the classifiers of
the parent's rules; without a parent every given rule is enforced. Rule ids
are unique in the plugin store. -/
theorem enforced_prs_rules_restriction (ruleDb : List PolicyRule)
    (prsDb : List PolicyRuleSet) (prs : PolicyRuleSet)
    (subset : Option (List String))
    (hn : (ruleDb.map PolicyRule.id).Nodup) :
    (∀ pid parent, prs.parent_id = some pid →
      getPolicyRuleSet prsDb pid = some parent →
      getEnforcedPrsRules ruleDb prsDb prs subset =
        some ((getPolicyRules ruleDb (prsSubsetArg prs subset)).filter
          (fun r => ((getPolicyRules ruleDb parent.policy_rules).map
            (fun q => q.policy_classifier_id)).contains r.policy_classifier_id))) ∧
    (prs.parent_id = none →
      getEnforcedPrsRules ruleDb prsDb prs subset =
        some (getPolicyRules ruleDb (prsSubsetArg prs subset))) := by
  constructor
  · intro pid parent hpid hparent
    have hsub1 : (getPolicyRules ruleDb (prsSubsetArg prs subset)).Sublist ruleDb := by
      unfold getPolicyRules
      exact List.filter_sublist _
    have hsub : ((getPolicyRules ruleDb (prsSubsetArg prs subset)).filter
        (fun r => ((getPolicyRules ruleDb parent.policy_rules).map
          (fun q => q.policy_classifier_id)).contains r.policy_classifier_id)).Sublist
        ruleDb := (List.filter_sublist _).trans hsub1
    have hkey := getPolicyRules_map_id_of_sublist ruleDb _ hn hsub
    simp only [getEnforcedPrsRules, hpid, hparent]
    rw [hkey]
  · intro hnone
    simp only [getEnforcedPrsRules, hnone]

/-- Witness for C7 at a concrete input: parent with classifiers A and B,
child with classifiers A, B and C; the enforced set keeps only the A and B
rules. -/
theorem enforced_prs_rules_restriction_witness :
    getEnforcedPrsRules
      [⟨"r1", "A", []⟩, ⟨"r2", "B", []⟩, ⟨"r3", "C", []⟩]
      [⟨"p", none, ["r1", "r2"]⟩, ⟨"c", some "p", ["r1", "r2", "r3"]⟩]
      ⟨"c", some "p", ["r1", "r2", "r3"]⟩ none =
      some [⟨"r1", "A", []⟩, ⟨"r2", "B", []⟩] := by
  have h := (enforced_prs_rules_restriction
    [⟨"r1", "A", []⟩, ⟨"r2", "B", []⟩, ⟨"r3", "C", []⟩]
    [⟨"p", none, ["r1", "r2"]⟩, ⟨"c", some "p", ["r1", "r2", "r3"]⟩]
    ⟨"c", some "p", ["r1", "r2", "r3"]⟩ none (by decide)).1
    "p" ⟨"p", none, ["r1", "r2"]⟩ rfl (by decide)
  rw [h]
  decide

/-! ## C2: result state machine, repair gating, commit gating -/

theorem vrank_le_two (r : VResult) : vrank r ≤ 2 := by
  cases r <;> simp [vrank]

theorem shouldRepairB_eq_true_iff (rep : Bool) (r : VResult) :
    shouldRepairB rep r = true ↔ (rep = true ∧ r ≠ VResult.failed) := by
  cases r <;> cases rep <;> simp [shouldRepairB]

theorem vrank_le_one_of_shouldRepair (rep : Bool) (r : VResult)
    (h : shouldRepairB rep r = true) : vrank r ≤ 1 := by
  have := (shouldRepairB_eq_true_iff rep r).mp h
  cases r
  · simp [vrank]
  · simp [vrank]
  · exact absurd rfl this.2

theorem append_singleton_ne {α : Type} (l : List α) (x : α) : l ++ [x] ≠ l := by
  intro h
  have := congrArg List.length h
  simp at this

theorem stepActual_result_mono (schema : List String) (rep : Bool) (acc : ClassAcc)
    (a : AimResource) :
    vrank acc.result ≤ vrank (stepActual schema rep acc a).result := by
  unfold stepActual
  cases hf : acc.expectedLeft.find? (fun e => e.identity == a.identity) with
  | none =>
      by_cases hm : monitoredDefTrue a
      · simp [hm]
      · by_cases hs : shouldRepairB rep acc.result = true
        · simpa [hm, hs, vrank] using vrank_le_one_of_shouldRepair rep acc.result hs
        · simpa [hm, hs, vrank] using vrank_le_two acc.result
  | some e =>
      by_cases hm : monitoredDefTrue e
      · simp [hm]
      · by_cases hc : isResourceCorrect schema e a
        · simp [hm, hc]
        · by_cases hs : shouldRepairB rep acc.result = true
          · simpa [hm, hc, hs, vrank] using vrank_le_one_of_shouldRepair rep acc.result hs
          · simpa [hm, hc, hs, vrank] using vrank_le_two acc.result

theorem stepMissing_result_mono (rep : Bool) (acc : ClassAcc) (e : AimResource) :
    vrank acc.result ≤ vrank (stepMissing rep acc e).result := by
  unfold stepMissing
  by_cases hs : shouldRepairB rep acc.result = true
  · simpa [hs, vrank] using vrank_le_one_of_shouldRepair rep acc.result hs
  · simpa [hs, vrank] using vrank_le_two acc.result

theorem foldl_stepActual_result_mono (schema : List String) (rep : Bool) :
    ∀ (A : List AimResource) (acc : ClassAcc),
      vrank acc.result ≤ vrank (A.foldl (stepActual schema rep) acc).result := by
  intro A
  induction A with
  | nil => intro acc; simp
  | cons a A ih =>
      intro acc
      exact le_trans (stepActual_result_mono schema rep acc a) (ih _)

theorem foldl_stepMissing_result_mono (rep : Bool) :
    ∀ (L : List AimResource) (acc : ClassAcc),
      vrank acc.result ≤ vrank (L.foldl (stepMissing rep) acc).result := by
  intro L
  induction L with
  | nil => intro acc; simp
  | cons e L ih =>
      intro acc
      exact le_trans (stepMissing_result_mono rep acc e) (ih _)

theorem stepActual_failed_terminal (schema : List String) (rep : Bool)
    (acc : ClassAcc) (a : AimResource) (h : acc.result = .failed) :
    (stepActual schema rep acc a).result = .failed ∧
    (stepActual schema rep acc a).actions = acc.actions := by
  unfold stepActual
  cases hf : acc.expectedLeft.find? (fun e => e.identity == a.identity) with
  | none =>
      by_cases hm : monitoredDefTrue a <;> simp [hm, h, shouldRepairB]
  | some e =>
      by_cases hm : monitoredDefTrue e
      · simp [hm, h]
      · by_cases hc : isResourceCorrect schema e a <;> simp [hm, hc, h, shouldRepairB]

theorem stepActual_actions_change_iff (schema : List String) (rep : Bool)
    (acc : ClassAcc) (a : AimResource) :
    ((stepActual schema rep acc a).actions ≠ acc.actions ↔
      detectsProblem schema acc.expectedLeft a = true ∧ rep = true ∧
        acc.result ≠ VResult.failed) := by
  unfold stepActual detectsProblem
  cases hf : acc.expectedLeft.find? (fun e => e.identity == a.identity) with
  | none =>
      by_cases hm : monitoredDefTrue a
      · simp [hm]
      · by_cases hs : shouldRepairB rep acc.result = true
        · have hiff := (shouldRepairB_eq_true_iff rep acc.result).mp hs
          rw [if_neg hm, if_pos hs]
          constructor
          · intro _; exact ⟨by simp [hm], hiff.1, hiff.2⟩
          · intro _; exact append_singleton_ne acc.actions _
        · have hiff : ¬(rep = true ∧ acc.result ≠ VResult.failed) := by
            intro hx
            exact hs ((shouldRepairB_eq_true_iff rep acc.result).mpr hx)
          rw [if_neg hm, if_neg hs]
          constructor
          · intro hne; exact absurd rfl hne
          · intro hx; exact absurd ⟨hx.2.1, hx.2.2⟩ hiff
  | some e =>
      dsimp only
      by_cases hm : monitoredDefTrue e
      · simp [hm]
      · by_cases hc : isResourceCorrect schema e a
        · simp [hm, hc]
        · by_cases hs : shouldRepairB rep acc.result = true
          · have hiff := (shouldRepairB_eq_true_iff rep acc.result).mp hs
            rw [if_neg hm, if_neg hc, if_pos hs]
            constructor
            · intro _; exact ⟨by simp [hm, hc], hiff.1, hiff.2⟩
            · intro _; exact append_singleton_ne acc.actions _
          · have hiff : ¬(rep = true ∧ acc.result ≠ VResult.failed) := by
              intro hx
              exact hs ((shouldRepairB_eq_true_iff rep acc.result).mpr hx)
            rw [if_neg hm, if_neg hc, if_neg hs]
            constructor
            · intro hne; exact absurd rfl hne
            · intro hx; exact absurd ⟨hx.2.1, hx.2.2⟩ hiff

theorem stepActual_problem_no_repair (schema : List String) (rep : Bool)
    (acc : ClassAcc) (a : AimResource)
    (hp : detectsProblem schema acc.expectedLeft a = true)
    (hs : shouldRepairB rep acc.result = false) :
    (stepActual schema rep acc a).result = .failed ∧
    (stepActual schema rep acc a).actions = acc.actions ∧
    (stepActual schema rep acc a).outStore = acc.outStore ++ [a] := by
  unfold detectsProblem at hp
  unfold stepActual
  cases hf : acc.expectedLeft.find? (fun e => e.identity == a.identity) with
  | none =>
      rw [hf] at hp
      have hp2 : (!monitoredDefTrue a) = true := hp
      have hm : monitoredDefTrue a = false := by simpa using hp2
      simp [hm, hs]
  | some e =>
      rw [hf] at hp
      have hp2 : (!monitoredDefTrue e && !isResourceCorrect schema e a) = true := hp
      have hm : monitoredDefTrue e = false := by
        have := (Bool.and_eq_true _ _).mp hp2
        simpa using this.1
      have hc : isResourceCorrect schema e a = false := by
        have := (Bool.and_eq_true _ _).mp hp2
        simpa using this.2
      simp [hm, hc, hs]

theorem stepMissing_actions_change_iff (rep : Bool) (acc : ClassAcc)
    (e : AimResource) :
    ((stepMissing rep acc e).actions ≠ acc.actions ↔
      rep = true ∧ acc.result ≠ VResult.failed) := by
  unfold stepMissing
  by_cases hs : shouldRepairB rep acc.result = true
  · have hiff := (shouldRepairB_eq_true_iff rep acc.result).mp hs
    rw [if_pos hs]
    constructor
    · intro _; exact hiff
    · intro _; exact append_singleton_ne acc.actions _
  · have hiff : ¬(rep = true ∧ acc.result ≠ VResult.failed) := by
      intro hx
      exact hs ((shouldRepairB_eq_true_iff rep acc.result).mpr hx)
    rw [if_neg hs]
    constructor
    · intro hne; exact absurd rfl hne
    · intro hx; exact absurd hx hiff

/-- C2: within one `validate()` run the overall result only moves forward
along the chain `PASSED` → `REPAIRED` → `FAILED`; once `FAILED` it stays
`FAILED` and no further repair action is ever issued; a repair action is
issued for a processed actual resource exactly when a problem is detected,
repair was requested, and the result is not already `FAILED` (a problem in
any other case sets the result to `FAILED` and leaves the store untouched);
a missing expected resource is repaired under exactly the same gate; and
the run's transaction is committed exactly when the final result is
`REPAIRED`. -/
theorem validation_state_machine (schema : List String) :
    (∀ rep acc a, vrank acc.result ≤ vrank (stepActual schema rep acc a).result) ∧
    (∀ rep acc e, vrank acc.result ≤ vrank (stepMissing rep acc e).result) ∧
    (∀ rep r0 E A, vrank r0 ≤ vrank (validateClass schema rep r0 E A).result) ∧
    (∀ rep acc a, acc.result = VResult.failed →
      (stepActual schema rep acc a).result = VResult.failed ∧
      (stepActual schema rep acc a).actions = acc.actions) ∧
    (∀ rep acc a,
      ((stepActual schema rep acc a).actions ≠ acc.actions ↔
        detectsProblem schema acc.expectedLeft a = true ∧ rep = true ∧
          acc.result ≠ VResult.failed)) ∧
    (∀ rep acc a, detectsProblem schema acc.expectedLeft a = true →
      shouldRepairB rep acc.result = false →
      (stepActual schema rep acc a).result = VResult.failed ∧
      (stepActual schema rep acc a).actions = acc.actions ∧
      (stepActual schema rep acc a).outStore = acc.outStore ++ [a]) ∧
    (∀ rep acc e, ((stepMissing rep acc e).actions ≠ acc.actions ↔
      rep = true ∧ acc.result ≠ VResult.failed)) ∧
    (∀ rep pre E A, ((validateRun schema rep pre E A).committed = true ↔
      (validateRun schema rep pre E A).result = VResult.repaired)) := by
  refine ⟨fun rep acc a => stepActual_result_mono schema rep acc a,
    fun rep acc e => stepMissing_result_mono rep acc e,
    fun rep r0 E A => ?_,
    fun rep acc a h => stepActual_failed_terminal schema rep acc a h,
    fun rep acc a => stepActual_actions_change_iff schema rep acc a,
    fun rep acc a hp hs => stepActual_problem_no_repair schema rep acc a hp hs,
    fun rep acc e => stepMissing_actions_change_iff rep acc e,
    fun rep pre E A => ?_⟩
  · unfold validateClass
    exact le_trans (foldl_stepActual_result_mono schema rep A ⟨r0, E, [], []⟩)
      (foldl_stepMissing_result_mono rep _ _)
  · simp [validateRun]

/-- Witness for C2 at a concrete input: from an already-failed state, a
detected unexpected non-monitored resource leaves the result `FAILED` and
issues no repair action even with repair requested. -/
theorem validation_state_machine_witness :
    (stepActual [] true ⟨.failed, [], [], []⟩ ⟨["k"], some false, []⟩).result =
      VResult.failed ∧
    (stepActual [] true ⟨.failed, [], [], []⟩ ⟨["k"], some false, []⟩).actions = [] :=
  (validation_state_machine []).2.2.2.1 true ⟨.failed, [], [], []⟩
    ⟨["k"], some false, []⟩ rfl

/-! ## C3: implicit subnet allocation -/

theorem validateSubnetOverlap_disjoint (subnets : List Cidr) (c : Cidr)
    (h : validateSubnetOverlapForL3p subnets c = true) :
    ∀ s ∈ subnets, cidrOverlap s c = false := by
  intro sn hs
  have := (List.all_eq_true.mp h) sn hs
  simpa using this

theorem useImplicitSubnetGo_ok_spec (existing : List Cidr)
    (tryCreate : Cidr → CreateOutcome) :
    ∀ (cands : List Cidr) (c : Cidr),
      useImplicitSubnetGo existing tryCreate cands = .ok c →
      validateSubnetOverlapForL3p existing c = true ∧ tryCreate c = .ok ∧
      ∃ pre post, cands = pre ++ c :: post ∧
        ∀ d ∈ pre, skipOrConflict existing tryCreate d := by
  intro cands
  induction cands with
  | nil =>
      intro c h
      simp [useImplicitSubnetGo] at h
  | cons c0 rest ih =>
      intro c h
      unfold useImplicitSubnetGo at h
      by_cases hv : validateSubnetOverlapForL3p existing c0 = true
      · rw [hv] at h
        simp only [Bool.not_true, Bool.false_eq_true, if_false] at h
        cases ht : tryCreate c0 with
        | ok =>
            rw [ht] at h
            have hc : c0 = c := by
              injection h
            subst hc
            exact ⟨hv, ht, [], rest, rfl, fun d hd => absurd hd (List.not_mem_nil d)⟩
        | createBadRequest =>
            rw [ht] at h
            obtain ⟨h1, h2, pre, post, hdec, hpre⟩ := ih c h
            refine ⟨h1, h2, c0 :: pre, post, by rw [hdec]; rfl, ?_⟩
            intro d hd
            rcases List.mem_cons.mp hd with hd0 | hdp
            · subst hd0
              exact Or.inr (Or.inl ht)
            · exact hpre d hdp
        | attachBadRequest =>
            rw [ht] at h
            obtain ⟨h1, h2, pre, post, hdec, hpre⟩ := ih c h
            refine ⟨h1, h2, c0 :: pre, post, by rw [hdec]; rfl, ?_⟩
            intro d hd
            rcases List.mem_cons.mp hd with hd0 | hdp
            · subst hd0
              exact Or.inr (Or.inr ht)
            · exact hpre d hdp
        | attachInvalidInput =>
            rw [ht] at h
            cases h
      · have hv' : validateSubnetOverlapForL3p existing c0 = false :=
          Bool.eq_false_iff.mpr hv
        rw [hv'] at h
        simp only [Bool.not_false, if_true] at h
        obtain ⟨h1, h2, pre, post, hdec, hpre⟩ := ih c h
        refine ⟨h1, h2, c0 :: pre, post, by rw [hdec]; rfl, ?_⟩
        intro d hd
        rcases List.mem_cons.mp hd with hd0 | hdp
        · subst hd0
          exact Or.inl hv'
        · exact hpre d hdp

theorem useImplicitSubnetGo_nsa_iff (existing : List Cidr)
    (tryCreate : Cidr → CreateOutcome) :
    ∀ (cands : List Cidr),
      useImplicitSubnetGo existing tryCreate cands = .noSubnetAvailable ↔
      ∀ d ∈ cands, skipOrConflict existing tryCreate d := by
  intro cands
  induction cands with
  | nil => simp [useImplicitSubnetGo]
  | cons c0 rest ih =>
      unfold useImplicitSubnetGo
      by_cases hv : validateSubnetOverlapForL3p existing c0 = true
      · rw [hv]
        simp only [Bool.not_true, Bool.false_eq_true, if_false]
        cases ht : tryCreate c0 with
        | ok =>
            constructor
            · intro h; cases h
            · intro h
              have := h c0 (List.mem_cons_self c0 rest)
              rcases this with h1 | h2 | h3
              · rw [hv] at h1; cases h1
              · rw [ht] at h2; cases h2
              · rw [ht] at h3; cases h3
        | createBadRequest =>
            rw [ih]
            constructor
            · intro h d hd
              rcases List.mem_cons.mp hd with hd0 | hdp
              · subst hd0; exact Or.inr (Or.inl ht)
              · exact h d hdp
            · intro h d hd
              exact h d (List.mem_cons_of_mem c0 hd)
        | attachBadRequest =>
            rw [ih]
            constructor
            · intro h d hd
              rcases List.mem_cons.mp hd with hd0 | hdp
              · subst hd0; exact Or.inr (Or.inr ht)
              · exact h d hdp
            · intro h d hd
              exact h d (List.mem_cons_of_mem c0 hd)
        | attachInvalidInput =>
            constructor
            · intro h; cases h
            · intro h
              have := h c0 (List.mem_cons_self c0 rest)
              rcases this with h1 | h2 | h3
              · rw [hv] at h1; cases h1
              · rw [ht] at h2; cases h2
              · rw [ht] at h3; cases h3
      · have hv' : validateSubnetOverlapForL3p existing c0 = false :=
          Bool.eq_false_iff.mpr hv
        rw [hv']
        simp only [Bool.not_false, if_true]
        rw [ih]
        constructor
        · intro h d hd
          rcases List.mem_cons.mp hd with hd0 | hdp
          · subst hd0; exact Or.inl hv'
          · exact h d hdp
        · intro h d hd
          exact h d (List.mem_cons_of_mem c0 hd)

/-- C3: the implicit subnet allocator enumerates the candidate subnets of
the L3Policy's ip_pool at the requested length in order; whenever it
returns a subnet, that candidate passed the in-use overlap check (so its
CIDR set is disjoint from every subnet already attached to an EndpointGroup
under the L3Policy), the backend created and attached it successfully, and
every earlier candidate was either skipped for overlapping an in-use subnet
or failed with a CIDR-conflict error; `NoSubnetAvailable` is raised exactly
when every candidate of the pool is skipped or fails that way. -/
theorem implicit_subnet_allocation (existing : List Cidr)
    (tryCreate : Cidr → CreateOutcome) (pool : Cidr) (subnetLen : Nat) :
    (∀ c, useImplicitSubnet existing tryCreate pool subnetLen = .ok c →
      validateSubnetOverlapForL3p existing c = true ∧
      tryCreate c = .ok ∧
      (∀ s ∈ existing, cidrOverlap s c = false) ∧
      ∃ pre post, poolSubnets pool subnetLen = pre ++ c :: post ∧
        ∀ d ∈ pre, skipOrConflict existing tryCreate d) ∧
    (useImplicitSubnet existing tryCreate pool subnetLen = .noSubnetAvailable ↔
      ∀ d ∈ poolSubnets pool subnetLen, skipOrConflict existing tryCreate d) := by
  constructor
  · intro c h
    obtain ⟨h1, h2, pre, post, hdec, hpre⟩ :=
      useImplicitSubnetGo_ok_spec existing tryCreate (poolSubnets pool subnetLen) c h
    exact ⟨h1, h2, validateSubnetOverlap_disjoint existing c h1, pre, post, hdec, hpre⟩
  · exact useImplicitSubnetGo_nsa_iff existing tryCreate (poolSubnets pool subnetLen)

/-- Witness for C3 at a concrete input: a 4-candidate pool whose first
candidate overlaps the one in-use subnet; the allocator returns the second
candidate, which is disjoint from the in-use subnet. -/
theorem implicit_subnet_allocation_witness :
    validateSubnetOverlapForL3p [⟨0, 32⟩] ⟨1, 32⟩ = true ∧
    (fun _ => CreateOutcome.ok) (Cidr.mk 1 32) = CreateOutcome.ok ∧
    (∀ s ∈ [Cidr.mk 0 32], cidrOverlap s ⟨1, 32⟩ = false) ∧
    ∃ pre post, poolSubnets ⟨0, 30⟩ 32 = pre ++ Cidr.mk 1 32 :: post ∧
      ∀ d ∈ pre, skipOrConflict [⟨0, 32⟩] (fun _ => CreateOutcome.ok) d :=
  (implicit_subnet_allocation [⟨0, 32⟩] (fun _ => CreateOutcome.ok) ⟨0, 30⟩ 32).1
    ⟨1, 32⟩ (by decide)

/-! ## C6: idempotent name mapping -/

theorem length_mk (l : List Char) : (String.mk l).length = l.length := rfl

theorem getApicName_update (db : MapperDB) (rid ty nm : String) :
    getApicName (updateApicName db rid ty nm) rid ty = some nm := by
  simp [getApicName, updateApicName, List.find?_cons_of_pos]

/-- C6: once a `map()` call has persisted a name mapping, a later call for
the same id and type without `remap` returns exactly the persisted name
(with at most the requested prefix prepended and the result re-truncated to
the maximum length), leaving the store untouched; in particular a repeated
call with identical arguments returns the same name and the same store. -/
theorem name_mapping_idempotent :
    (∀ (strat : Strategy) (ms : Nat) (db : MapperDB) (ty rid : String)
        (rname : Option String) (pfx saved : String),
      getApicName db rid ty = some saved →
      innerMap strat ms db ty rid rname false pfx =
        (db, if pfx ≠ "" then truncate (pfx ++ saved) maxApicNameLength else saved)) ∧
    (∀ (strat : Strategy) (ms : Nat) (db : MapperDB) (ty rid : String)
        (rname : Option String) (pfx : String),
      innerMap strat ms (innerMap strat ms db ty rid rname false pfx).1
          ty rid rname false pfx =
        innerMap strat ms db ty rid rname false pfx) := by
  constructor
  · intro strat ms db ty rid rname pfx saved hsaved
    simp [innerMap, hsaved]
  · intro strat ms db ty rid rname pfx
    cases hsv : getApicName db rid ty with
    | some saved =>
        have h1 : innerMap strat ms db ty rid rname false pfx =
            (db, if pfx ≠ "" then truncate (pfx ++ saved) maxApicNameLength
                 else saved) := by
          simp [innerMap, hsv]
        rw [h1]
        simp [innerMap, hsv]
    | none =>
        have h1 : innerMap strat ms db ty rid rname false pfx =
            (updateApicName db rid ty
                (computeMappedName strat ms db ty rid rname),
             if pfx ≠ "" then
               truncate (pfx ++ computeMappedName strat ms db ty rid rname)
                 maxApicNameLength
             else computeMappedName strat ms db ty rid rname) := by
          simp [innerMap, hsv]
        rw [h1]
        simp [innerMap, getApicName_update]

/-- Witness for C6 at a concrete input: with the mapping ("id1", network) ↦
"net1" persisted, a prefixless call returns exactly "net1" and leaves the
store untouched. -/
theorem name_mapping_idempotent_witness :
    innerMap .useUuid 5 [⟨"id1", "network", "net1"⟩] "network" "id1" none false "" =
      ([⟨"id1", "network", "net1"⟩], "net1") := by
  have h := name_mapping_idempotent.1 .useUuid 5 [⟨"id1", "network", "net1"⟩]
    "network" "id1" none "" "net1" (by decide)
  simpa using h

/-! ## C5: the 46-character truncation bound -/

/-- Counterexample to C5 as stated: mapping a 47-character resource id with
no human name returns the dash-collapsed id without any truncation, so the
mapped (and persisted) name has 47 characters, exceeding the 46-character
bound. -/
theorem mapped_name_length_counterexample :
    46 < ((innerMap .useUuid 5 [] "network"
      "aaaaaaaaaaaaaaaaaaaaaaaaaaaaaaaaaaaaaaaaaaaaaaa" none false "").2).length := by
  decide

theorem truncate_length_le (s : String) (m : Int) :
    (truncate s m).length ≤ m.toNat := by
  unfold truncate
  split_ifs with h1 h2
  · simp [String.length]
  · simp only [length_mk, List.length_take]
    exact min_le_left _ _
  · have h2' : (s.length : Int) ≤ m := le_of_not_lt h2
    omega

theorem removeSpaces_length_le (s : String) :
    (removeSpaces s).length ≤ s.length :=
  List.length_filter_le _ s.data

theorem growFrom_no_collision (collides : String → Bool) (flag : Bool)
    (rest : List Char) (r : String) (h : collides r = false) :
    growFrom collides flag rest r = r := by
  cases rest <;> simp [growFrom, h]

theorem growIdIfNeeded_length_le (collides : String → Bool)
    (resourceId current : String) (start : Nat)
    (hcol : ∀ s, collides s = false) :
    (growIdIfNeeded collides resourceId current start).length ≤ current.length := by
  unfold growIdIfNeeded
  rw [growFrom_no_collision _ _ _ _ (hcol _)]
  split_ifs
  · simp only [length_mk]
    have : current.data.dropLast.length = current.data.length - 1 :=
      List.length_dropLast _
    have hcl : current.length = current.data.length := rfl
    omega
  · exact le_refl _

theorem computeMappedName_length_bound (strat : Strategy) (ms : Nat)
    (db : MapperDB) (ty rid nm : String) (hnm : nm ≠ "")
    (hcol : ∀ s2, getFilteredApicNames db ty s2 = false) :
    (computeMappedName strat ms db ty rid (some nm)).length ≤ 46 := by
  unfold computeMappedName
  simp only [Option.getD_some, if_pos hnm]
  have hr2 : ∀ r1 : String, (removeSpaces (truncate r1 maxApicNameLength)).length ≤ 46 := by
    intro r1
    calc (removeSpaces (truncate r1 maxApicNameLength)).length
        ≤ (truncate r1 maxApicNameLength).length := removeSpaces_length_le _
      _ ≤ maxApicNameLength.toNat := truncate_length_le _ _
      _ = 46 := rfl
  cases strat with
  | useName => exact hr2 _
  | useUuid =>
      calc (growIdIfNeeded (fun s2 => getFilteredApicNames db ty s2)
              (collapseDashes rid) _ ms).length
          ≤ _ := growIdIfNeeded_length_le _ _ _ _ hcol
        _ ≤ 46 := hr2 _

/-- C5 amended: the 46-character bound holds for the computed and returned
name whenever a non-empty human name is given and the mapping store holds no
entry of the requested resource type (so no saved over-length name is
replayed and the collision probe appends nothing). As stated — for every id
and every name, including the empty name and collision-suffix growth — the
bound fails: the empty-name fallback returns the dash-collapsed id without
truncation, and each collision appends one id character past the bound. -/
theorem mapped_name_length_bound (strat : Strategy) (ms : Nat) (db : MapperDB)
    (ty rid nm pfx : String) (hnm : nm ≠ "")
    (hdb : ∀ r ∈ db, r.neutron_type ≠ ty) :
    ((innerMap strat ms db ty rid (some nm) false pfx).2).length ≤ 46 := by
  have hget : getApicName db rid ty = none := by
    unfold getApicName
    rw [List.find?_eq_none.mpr ?_]
    · rfl
    · intro r hr
      have hne : (r.neutron_type == ty) = false := by
        simpa using hdb r hr
      simp [hne]
  have hcol : ∀ s2, getFilteredApicNames db ty s2 = false := by
    intro s2
    unfold getFilteredApicNames
    rw [List.any_eq_false.mpr ?_]
    intro r hr
    have hne : (r.neutron_type == ty) = false := by
      simpa using hdb r hr
    simp [hne]
  have hbase := computeMappedName_length_bound strat ms db ty rid nm hnm hcol
  simp only [innerMap]
  rw [hget]
  simp only [Bool.false_eq_true, if_false]
  by_cases hp : pfx ≠ ""
  · rw [if_pos hp]
    calc (truncate (pfx ++ computeMappedName strat ms db ty rid (some nm))
            maxApicNameLength).length
        ≤ maxApicNameLength.toNat := truncate_length_le _ _
      _ = 46 := rfl
  · rw [if_neg hp]
    exact hbase

/-- Witness for the amended C5 at a concrete input: a fresh store and a
non-empty name yield a mapped name within the 46-character bound. -/
theorem mapped_name_length_bound_witness :
    ((innerMap .useUuid 5 [] "network" "id-1" (some "mynet") false "").2).length ≤ 46 :=
  mapped_name_length_bound .useUuid 5 [] "network" "id-1" "mynet" ""
    (by decide) (by simp)

/-! ## C1: repair convergence -/

theorem find?_append_of_none {α : Type} (p : α → Bool) (X Y : List α)
    (h : ∀ x ∈ X, p x = false) : (X ++ Y).find? p = Y.find? p := by
  induction X with
  | nil => rfl
  | cons x X ih =>
      rw [List.cons_append, List.find?_cons_of_neg _ (by simp [h x (List.mem_cons_self x X)])]
      exact ih (fun y hy => h y (List.mem_cons_of_mem x hy))

theorem distinctKeys_head_not_mem {X : List AimResource} {a : AimResource}
    {Y : List AimResource} (hd : distinctKeys (X ++ (a :: Y)))
    (x : AimResource) (hx : x ∈ X) : (x.identity == a.identity) = false := by
  have hmem : a ∈ a :: Y := List.mem_cons_self a Y
  have := (List.pairwise_append.mp hd).2.2 x hx a hmem
  simpa using this

theorem selfConsume (schema : List String) (rep : Bool) :
    ∀ (L X R : List AimResource) (r : VResult) (out : List AimResource)
      (acts : List RepairAction),
      distinctKeys (X ++ L ++ R) →
      L.foldl (stepActual schema rep) ⟨r, X ++ L ++ R, out, acts⟩ =
        ⟨r, X ++ R, out ++ L, acts⟩ := by
  intro L
  induction L with
  | nil =>
      intro X R r out acts _
      simp
  | cons a L ih =>
      intro X R r out acts hd
      have hd' : distinctKeys (X ++ ((a :: L) ++ R)) := by
        rwa [← List.append_assoc]
      have hXne : ∀ x ∈ X, ((fun e => e.identity == a.identity) x) = false := by
        intro x hx
        exact distinctKeys_head_not_mem (by simpa using hd') x hx
      have h1 : (X ++ (a :: L) ++ R).find? (fun e => e.identity == a.identity) =
          some a := by
        rw [List.append_assoc, find?_append_of_none _ X _ hXne, List.cons_append,
          List.find?_cons_of_pos _ (by simp)]
      have h2 : (X ++ (a :: L) ++ R).eraseP (fun e2 => e2.identity == a.identity) =
          X ++ L ++ R := by
        rw [List.append_assoc,
          List.eraseP_append_right _ (by intro b hb; simp [hXne b hb]),
          List.cons_append, List.eraseP_cons, show (a.identity == a.identity) = true by simp]
        simp
      have hsub : (X ++ L ++ R).Sublist (X ++ (a :: L) ++ R) := by
        rw [List.append_assoc, List.append_assoc]
        exact (List.sublist_cons_self a (L ++ R)).append_left X
      have hd2 : distinctKeys (X ++ L ++ R) := List.Pairwise.sublist hsub hd
      have hstep : stepActual schema rep ⟨r, X ++ (a :: L) ++ R, out, acts⟩ a =
          ⟨r, X ++ L ++ R, out ++ [a], acts⟩ := by
        unfold stepActual
        dsimp only
        rw [h1]
        dsimp only
        rw [h2]
        by_cases hm : monitoredDefTrue a
        · rw [if_pos hm]
        · rw [if_neg hm, if_pos (isResourceCorrect_refl schema a)]
      rw [List.foldl_cons, hstep, ih X R r (out ++ [a]) acts hd2]
      simp

theorem cleanClass (schema : List String) (rep : Bool) (E : List AimResource)
    (hd : distinctKeys E) :
    validateClass schema rep .passed E E = ⟨.passed, [], E, []⟩ := by
  unfold validateClass
  have h := selfConsume schema rep E [] [] .passed [] [] (by simpa using hd)
  simp only [List.nil_append, List.append_nil] at h
  rw [h]
  rfl

theorem repairClass_missing (schema : List String) (E1 : List AimResource)
    (e : AimResource) (E2 : List AimResource)
    (hd : distinctKeys (E1 ++ e :: E2)) :
    validateClass schema true .passed (E1 ++ e :: E2) (E1 ++ E2) =
      ⟨.repaired, [e], (E1 ++ E2) ++ [e], [.createRes e]⟩ := by
  unfold validateClass
  rw [List.foldl_append]
  have h1 := selfConsume schema true E1 [] (e :: E2) .passed [] [] (by simpa using hd)
  simp only [List.nil_append] at h1
  rw [h1]
  have hd2 : distinctKeys ([e] ++ E2 ++ []) := by
    simp only [List.append_nil, List.singleton_append]
    exact List.Pairwise.sublist (List.sublist_append_right E1 (e :: E2)) hd
  have h2 := selfConsume schema true E2 [e] [] .passed E1 [] hd2
  simp only [List.append_nil, List.singleton_append] at h2
  rw [h2]
  simp [stepMissing, shouldRepairB]

theorem cleanClass_afterMissing (schema : List String) (rep : Bool)
    (E1 : List AimResource) (e : AimResource) (E2 : List AimResource)
    (hd : distinctKeys (E1 ++ e :: E2)) :
    validateClass schema rep .passed (E1 ++ e :: E2) ((E1 ++ E2) ++ [e]) =
      ⟨.passed, [], (E1 ++ E2) ++ [e], []⟩ := by
  unfold validateClass
  rw [List.foldl_append, List.foldl_append]
  have h1 := selfConsume schema rep E1 [] (e :: E2) .passed [] [] (by simpa using hd)
  simp only [List.nil_append] at h1
  rw [h1]
  have hd2 : distinctKeys ([e] ++ E2 ++ []) := by
    simp only [List.append_nil, List.singleton_append]
    exact List.Pairwise.sublist (List.sublist_append_right E1 (e :: E2)) hd
  have h2 := selfConsume schema rep E2 [e] [] .passed E1 [] hd2
  simp only [List.append_nil, List.singleton_append] at h2
  rw [h2]
  have hd3 : distinctKeys ([] ++ [e] ++ []) := by
    simp [distinctKeys]
  have h3 := selfConsume schema rep [e] [] [] .passed (E1 ++ E2) [] hd3
  simp only [List.nil_append, List.append_nil] at h3
  rw [h3]
  rfl

theorem repairClass_unexpected (schema : List String) (A1 : List AimResource)
    (x : AimResource) (A2 : List AimResource)
    (hd : distinctKeys (A1 ++ A2)) (hxmon : monitoredDefTrue x = false)
    (hxfresh : ∀ e ∈ A1 ++ A2, e.identity ≠ x.identity) :
    validateClass schema true .passed (A1 ++ A2) (A1 ++ x :: A2) =
      ⟨.repaired, [], A1 ++ A2, [.deleteRes x]⟩ := by
  unfold validateClass
  rw [List.foldl_append, List.foldl_cons]
  have h1 := selfConsume schema true A1 [] A2 .passed [] [] (by simpa using hd)
  simp only [List.nil_append] at h1
  rw [h1]
  have hfind : A2.find? (fun e => e.identity == x.identity) = none := by
    rw [List.find?_eq_none]
    intro y hy
    simp [hxfresh y (List.mem_append_right A1 hy)]
  have hstep : stepActual schema true ⟨.passed, A2, A1, []⟩ x =
      ⟨.repaired, A2, A1, [.deleteRes x]⟩ := by
    unfold stepActual
    dsimp only
    rw [hfind]
    dsimp only
    rw [if_neg (by simp [hxmon]), if_pos (by decide)]
    simp
  rw [hstep]
  have hd2 : distinctKeys ([] ++ A2 ++ []) := by
    simp only [List.nil_append, List.append_nil]
    exact List.Pairwise.sublist (List.sublist_append_right A1 A2) hd
  have h2 := selfConsume schema true A2 [] [] .repaired A1 [.deleteRes x] hd2
  simp only [List.nil_append, List.append_nil] at h2
  rw [h2]
  rfl

theorem repairClass_incorrect (schema : List String) (E1 : List AimResource)
    (e : AimResource) (E2 : List AimResource) (a : AimResource)
    (hd : distinctKeys (E1 ++ e :: E2)) (hid : a.identity = e.identity)
    (hemon : monitoredDefTrue e = false)
    (hecorr : isResourceCorrect schema e a = false) :
    validateClass schema true .passed (E1 ++ e :: E2) (E1 ++ a :: E2) =
      ⟨.repaired, [], E1 ++ e :: E2, [.createOverwrite e]⟩ := by
  unfold validateClass
  rw [List.foldl_append, List.foldl_cons]
  have h1 := selfConsume schema true E1 [] (e :: E2) .passed [] [] (by simpa using hd)
  simp only [List.nil_append] at h1
  rw [h1]
  have hfind : (e :: E2).find? (fun e2 => e2.identity == a.identity) = some e :=
    List.find?_cons_of_pos _ (by simp [hid])
  have herase : (e :: E2).eraseP (fun e2 => e2.identity == a.identity) = E2 := by
    rw [List.eraseP_cons, show (e.identity == a.identity) = true by simp [hid]]
    rfl
  have hstep : stepActual schema true ⟨.passed, e :: E2, E1, []⟩ a =
      ⟨.repaired, E2, E1 ++ [e], [.createOverwrite e]⟩ := by
    unfold stepActual
    dsimp only
    rw [hfind]
    dsimp only
    rw [herase]
    rw [if_neg (by simp [hemon]), if_neg (by simp [hecorr]), if_pos (by decide)]
    simp
  rw [hstep]
  have hd2 : distinctKeys ([] ++ E2 ++ []) := by
    simp only [List.nil_append, List.append_nil, distinctKeys]
    have := List.Pairwise.sublist (List.sublist_append_right E1 (e :: E2)) hd
    exact (List.pairwise_cons.mp this).2
  have h2 := selfConsume schema true E2 [] [] .repaired (E1 ++ [e])
    [.createOverwrite e] hd2
  simp only [List.nil_append, List.append_nil] at h2
  rw [h2]
  simp

theorem validateRun_passed (schema : List String) (rep : Bool)
    (E A : List AimResource) :
    validateRun schema rep .passed E A =
      { result := (validateClass schema rep .passed E A).result
        store := (validateClass schema rep .passed E A).outStore
        actions := (validateClass schema rep .passed E A).actions
        committed := (validateClass schema rep .passed E A).result == .repaired } := by
  unfold validateRun
  rfl

/-- C1: for any single drift between the actual fabric inventory and the
expected inventory derived from the unchanged policy/network state — one
missing resource, one unexpected non-monitored resource, or one attribute
mismatch on a non-monitored resource — `validate(repair=True)` repairs the
drift (returning `REPAIRED`) and leaves the actual inventory equal, as a
multiset, to the expected inventory; an immediately following
`validate(repair=False)` over that repaired inventory returns `PASSED`. -/
theorem validation_repair_convergence (schema : List String)
    (E A : List AimResource) (hE : distinctKeys E) (hA : distinctKeys A)
    (hd : SingleDrift schema E A) :
    (validateRun schema true .passed E A).result = .repaired ∧
    ((validateRun schema true .passed E A).store).Perm E ∧
    (validateRun schema false .passed E
      ((validateRun schema true .passed E A).store)).result = .passed := by
  rcases hd with ⟨E1, e, E2, hEeq, hAeq⟩ | ⟨A1, x, A2, hEeq, hAeq, hxmon, hxfresh⟩ |
    ⟨E1, e, E2, a, hEeq, hAeq, hid, hemon, hecorr⟩
  · subst hEeq; subst hAeq
    rw [validateRun_passed, repairClass_missing schema E1 e E2 hE]
    dsimp only
    rw [validateRun_passed, cleanClass_afterMissing schema false E1 e E2 hE]
    refine ⟨rfl, ?_, rfl⟩
    rw [List.append_assoc]
    exact (List.perm_append_singleton e E2).append_left E1
  · subst hEeq; subst hAeq
    rw [validateRun_passed, repairClass_unexpected schema A1 x A2 hE hxmon hxfresh]
    dsimp only
    rw [validateRun_passed, cleanClass schema false (A1 ++ A2) hE]
    exact ⟨rfl, List.Perm.refl _, rfl⟩
  · subst hEeq; subst hAeq
    rw [validateRun_passed, repairClass_incorrect schema E1 e E2 a hE hid hemon hecorr]
    dsimp only
    rw [validateRun_passed, cleanClass schema false (E1 ++ e :: E2) hE]
    exact ⟨rfl, List.Perm.refl _, rfl⟩

/-- Witness for C1 at a concrete input: a two-resource expected inventory
whose non-monitored resource has drifted attributes is repaired, the
repaired store is a permutation of the expected inventory, and the second
validation passes. -/
theorem validation_repair_convergence_witness :
    (validateRun ["x"] true .passed
      [⟨["t", "bd1"], some false, [("x", .scalar "1")]⟩,
       ⟨["t", "bd2"], some true, [("x", .scalar "2")]⟩]
      [⟨["t", "bd1"], some false, [("x", .scalar "9")]⟩,
       ⟨["t", "bd2"], some true, [("x", .scalar "2")]⟩]).result = .repaired ∧
    ((validateRun ["x"] true .passed
      [⟨["t", "bd1"], some false, [("x", .scalar "1")]⟩,
       ⟨["t", "bd2"], some true, [("x", .scalar "2")]⟩]
      [⟨["t", "bd1"], some false, [("x", .scalar "9")]⟩,
       ⟨["t", "bd2"], some true, [("x", .scalar "2")]⟩]).store).Perm
      [⟨["t", "bd1"], some false, [("x", .scalar "1")]⟩,
       ⟨["t", "bd2"], some true, [("x", .scalar "2")]⟩] ∧
    (validateRun ["x"] false .passed
      [⟨["t", "bd1"], some false, [("x", .scalar "1")]⟩,
       ⟨["t", "bd2"], some true, [("x", .scalar "2")]⟩]
      ((validateRun ["x"] true .passed
        [⟨["t", "bd1"], some false, [("x", .scalar "1")]⟩,
         ⟨["t", "bd2"], some true, [("x", .scalar "2")]⟩]
        [⟨["t", "bd1"], some false, [("x", .scalar "9")]⟩,
         ⟨["t", "bd2"], some true, [("x", .scalar "2")]⟩]).store)).result = .passed :=
  validation_repair_convergence ["x"] _ _ (by decide) (by decide)
    (Or.inr (Or.inr ⟨[], ⟨["t", "bd1"], some false, [("x", .scalar "1")]⟩,
      [⟨["t", "bd2"], some true, [("x", .scalar "2")]⟩],
      ⟨["t", "bd1"], some false, [("x", .scalar "9")]⟩,
      rfl, rfl, rfl, rfl, by decide⟩))

end GBP
